import Mathlib

/-!
Verification of `scripts/packager-codes/non-eu/packager_codes.py`.

The script maintains a local mirror of packager-code documents: it scrapes a
remote registry (modelled as an oracle), diffs the scraped record collection
against a local manifest, and can download the documents and persist a
manifest file.  We embed the data model, the pure diff function `get_diff`,
and the effectful `status` and `download` commands (filesystem as explicit
state, network and scraper as oracles, effects recorded in a trace).
-/

namespace PackagerCodes

/-- A document record, as produced by the scraper: a JSON object with the
fields `file_path`, `url`, `publication_date` accessed by the script, plus
opaque extra fields passed through unchanged. -/
structure DocRecord where
  file_path : String
  url : String
  publication_date : String
  extra : List (String × String)
deriving DecidableEq, Repr

/-- Key membership test of an association list (`k in m` on a Python dict). -/
def hasKey : List (String × DocRecord) → String → Bool
  | [], _ => false
  | p :: rest, k => p.1 == k || hasKey rest k

/-- An insertion-ordered association list modelling a Python `dict` keyed by
strings.  Updating an existing key keeps its position (Python dicts preserve
the insertion order of the first occurrence) and overwrites the value. -/
def dictInsert (m : List (String × DocRecord)) (k : String) (v : DocRecord) :
    List (String × DocRecord) :=
  if hasKey m k then
    m.map (fun p => if p.1 = k then (k, v) else p)
  else
    m ++ [(k, v)]

/-- `{d["file_path"]: d for d in l}` : build the dict from a record list,
last write wins on duplicate keys. -/
def buildDict (l : List DocRecord) : List (String × DocRecord) :=
  l.foldl (fun m d => dictInsert m d.file_path d) []

/-- Dict lookup (`m[k]` / `k in m`), returning `none` when the key is absent. -/
def dlookup : List (String × DocRecord) → String → Option DocRecord
  | [], _ => none
  | p :: rest, k => if p.1 = k then some p.2 else dlookup rest k

/-- The keys of a dict, in insertion order. -/
def dkeys (m : List (String × DocRecord)) : List String :=
  m.map Prod.fst

/-- The list comprehension
`[n for n, doc in local_docs.items() if scraped_docs[n]["publication_date"] > doc["publication_date"]]`:
iterates the local dict entries in order; `scraped_docs[n]` raises `KeyError`
(modelled as `.error n`) when `n` is not a key of the scraped dict. -/
def updatedNamesAux : List (String × DocRecord) → List (String × DocRecord) →
    Except String (List String)
  | [], _ => .ok []
  | (k, d) :: rest, scraped =>
    match dlookup scraped k with
    | none => .error k
    | some sd =>
      match updatedNamesAux rest scraped with
      | .error e => .error e
      | .ok tl =>
        .ok (if d.publication_date < sd.publication_date then k :: tl else tl)

/-- The value returned by `get_diff`. -/
structure DiffResult where
  new : List DocRecord
  removed : List DocRecord
  updated : List DocRecord
deriving DecidableEq, Repr

/-- The body of `get_diff` after the two dicts are built.  `new_names` and
`removed_names` are Python set differences of the key sets (element order is
unspecified in Python; we fix insertion order).  `updated` indexes
`scraped_docs` without a membership guard, hence the `Except`. -/
def diffDicts (scraped_docs local_docs : List (String × DocRecord)) :
    Except String DiffResult :=
  let new_names := (dkeys scraped_docs).filter (fun k => (dlookup local_docs k).isNone)
  let removed_names := (dkeys local_docs).filter (fun k => (dlookup scraped_docs k).isNone)
  match updatedNamesAux local_docs scraped_docs with
  | .error e => .error e
  | .ok updated_names =>
    .ok { new := new_names.filterMap (dlookup scraped_docs)
          removed := removed_names.filterMap (dlookup local_docs)
          updated := updated_names.filterMap (dlookup scraped_docs) }

/-- `get_diff(scraped, local)`: build the two dicts and diff them.
`.error k` models the Python `KeyError: k`. -/
def get_diff (scraped loc : List DocRecord) : Except String DiffResult :=
  diffDicts (buildDict scraped) (buildDict loc)


/-! ### Dictionary lemmas -/

lemma dlookup_eq_none_of_hasKey (m : List (String × DocRecord)) (k : String)
    (h : hasKey m k = false) : dlookup m k = none := by
  induction m with
  | nil => rfl
  | cons p rest ih =>
    simp [hasKey] at h
    simp [dlookup, h.1, ih h.2]

lemma dlookup_map_replace (m : List (String × DocRecord)) (k : String) (v : DocRecord)
    (h : hasKey m k = true) :
    dlookup (m.map (fun p => if p.1 = k then (k, v) else p)) k = some v := by
  induction m with
  | nil => simp [hasKey] at h
  | cons p rest ih =>
    by_cases hp : p.1 = k
    · simp [dlookup, hp]
    · simp [hasKey, hp] at h
      simp [dlookup, hp]
      exact ih h

lemma dlookup_map_replace_ne (m : List (String × DocRecord)) (k : String) (v : DocRecord)
    (k' : String) (hne : k' ≠ k) :
    dlookup (m.map (fun p => if p.1 = k then (k, v) else p)) k' = dlookup m k' := by
  induction m with
  | nil => rfl
  | cons p rest ih =>
    by_cases hp : p.1 = k
    · simp [dlookup, hp, Ne.symm hne]
      exact ih
    · simp [dlookup, hp, ih]

lemma dlookup_append (m1 m2 : List (String × DocRecord)) (k : String) :
    dlookup (m1 ++ m2) k =
      match dlookup m1 k with
      | some v => some v
      | none => dlookup m2 k := by
  induction m1 with
  | nil => simp [dlookup]
  | cons p rest ih =>
    by_cases hp : p.1 = k
    · simp [dlookup, hp]
    · simp [dlookup, hp, ih]

lemma dlookup_dictInsert (m : List (String × DocRecord)) (k : String) (v : DocRecord)
    (k' : String) :
    dlookup (dictInsert m k v) k' = if k' = k then some v else dlookup m k' := by
  unfold dictInsert
  by_cases hmem : hasKey m k = true
  · rw [if_pos hmem]
    by_cases hk : k' = k
    · subst hk
      rw [if_pos rfl, dlookup_map_replace m k' v hmem]
    · rw [if_neg hk, dlookup_map_replace_ne m k v k' hk]
  · have hmem' : hasKey m k = false := by simpa using hmem
    rw [if_neg hmem]
    by_cases hk : k' = k
    · subst hk
      rw [if_pos rfl, dlookup_append, dlookup_eq_none_of_hasKey m k' hmem']
      simp [dlookup]
    · rw [if_neg hk, dlookup_append]
      have h1 : dlookup [(k, v)] k' = none := by
        simp [dlookup, Ne.symm hk]
      cases h2 : dlookup m k' <;> simp [h1, h2]

lemma isSome_dlookup_of_mem_dkeys (m : List (String × DocRecord)) (k : String)
    (h : k ∈ dkeys m) : (dlookup m k).isSome := by
  induction m with
  | nil => simp [dkeys] at h
  | cons p rest ih =>
    by_cases hp : p.1 = k
    · simp [dlookup, hp]
    · simp [dkeys, List.map_cons, List.mem_cons] at h
      rcases h with h | h
      · exact absurd h.symm hp
      · simp [dlookup, hp]
        exact ih (by simpa [dkeys] using h)

lemma dkeys_map_replace (m : List (String × DocRecord)) (k : String) (v : DocRecord) :
    dkeys (m.map (fun p => if p.1 = k then (k, v) else p)) = dkeys m := by
  induction m with
  | nil => rfl
  | cons p rest ih =>
    by_cases hp : p.1 = k <;> simp [dkeys, hp] at ih ⊢ <;> exact ih

lemma dkeys_dictInsert (m : List (String × DocRecord)) (k : String) (v : DocRecord) :
    dkeys (dictInsert m k v) = if hasKey m k then dkeys m else dkeys m ++ [k] := by
  unfold dictInsert
  by_cases hmem : hasKey m k = true
  · rw [if_pos hmem, if_pos hmem, dkeys_map_replace]
  · rw [if_neg hmem, if_neg hmem]
    simp [dkeys]

lemma buildDict_append (l : List DocRecord) (a : DocRecord) :
    buildDict (l ++ [a]) = dictInsert (buildDict l) a.file_path a := by
  simp [buildDict, List.foldl_append]

lemma nodup_dkeys_buildDict (l : List DocRecord) : (dkeys (buildDict l)).Nodup := by
  induction l using List.reverseRecOn with
  | nil => simp [buildDict, dkeys]
  | append_singleton l a ih =>
    rw [buildDict_append, dkeys_dictInsert]
    by_cases hmem : hasKey (buildDict l) a.file_path = true
    · rw [if_pos hmem]
      exact ih
    · have hmem' : hasKey (buildDict l) a.file_path = false := by simpa using hmem
      rw [if_neg hmem]
      have hnot : a.file_path ∉ dkeys (buildDict l) := by
        intro hin
        have hs := isSome_dlookup_of_mem_dkeys _ _ hin
        rw [dlookup_eq_none_of_hasKey _ _ hmem'] at hs
        simp at hs
      simp [List.nodup_append, ih, hnot]

lemma dlookup_of_mem_of_nodup (k : String) (d : DocRecord) :
    ∀ m : List (String × DocRecord), (dkeys m).Nodup → (k, d) ∈ m → dlookup m k = some d := by
  intro m
  induction m with
  | nil =>
    intro _ hmem
    simp at hmem
  | cons p rest ih =>
    intro hm hmem
    rw [show dkeys (p :: rest) = p.1 :: dkeys rest from rfl, List.nodup_cons] at hm
    rcases List.mem_cons.mp hmem with heq | htail
    · rw [← heq]
      simp [dlookup]
    · by_cases hp : p.1 = k
      · exfalso
        apply hm.1
        rw [hp]
        exact List.mem_map_of_mem Prod.fst htail
      · simp [dlookup, hp]
        exact ih hm.2 htail

lemma updatedNamesAux_refl (entries scraped : List (String × DocRecord))
    (h : ∀ p ∈ entries, dlookup scraped p.1 = some p.2) :
    updatedNamesAux entries scraped = .ok [] := by
  induction entries with
  | nil => rfl
  | cons p rest ih =>
    obtain ⟨k, d⟩ := p
    rw [updatedNamesAux, h (k, d) (List.mem_cons_self _ _),
      ih (fun q hq => h q (List.mem_cons_of_mem _ hq))]
    simp

lemma hasKey_map_pair (l : List DocRecord) (k : String) :
    hasKey (l.map (fun d => (d.file_path, d))) k = l.any (fun d => d.file_path == k) := by
  induction l with
  | nil => rfl
  | cons b t ih => simp [hasKey, ih]

lemma buildDict_eq_map (A : List DocRecord) (h : (A.map DocRecord.file_path).Nodup) :
    buildDict A = A.map (fun d => (d.file_path, d)) := by
  induction A using List.reverseRecOn with
  | nil => rfl
  | append_singleton l a ih =>
    have h2 : (l.map DocRecord.file_path ++ [a.file_path]).Nodup := by simpa using h
    have hnodup_l : (l.map DocRecord.file_path).Nodup := h2.of_append_left
    have hnotin : a.file_path ∉ l.map DocRecord.file_path := by
      intro hin
      exact (List.disjoint_of_nodup_append h2) hin (by simp)
    rw [buildDict_append, ih hnodup_l]
    simp only [dictInsert, hasKey_map_pair]
    have hfresh : (l.any (fun d => d.file_path == a.file_path)) = false := by
      rw [List.any_eq_false]
      intro d hd
      simp only [beq_iff_eq]
      intro hcon
      exact hnotin (hcon ▸ List.mem_map_of_mem DocRecord.file_path hd)
    rw [if_neg (by simp [hfresh]), List.map_append]
    rfl

lemma filterMap_congr_mem {α β : Type} (l : List α) (f g : α → Option β)
    (h : ∀ a ∈ l, f a = g a) : l.filterMap f = l.filterMap g := by
  induction l with
  | nil => rfl
  | cons a t ih =>
    rw [List.filterMap_cons, List.filterMap_cons, h a (List.mem_cons_self _ _),
      ih (fun b hb => h b (List.mem_cons_of_mem _ hb))]

lemma filterMap_dlookup_self (m : List (String × DocRecord))
    (hm : (dkeys m).Nodup) :
    (dkeys m).filterMap (dlookup m) = m.map Prod.snd := by
  induction m with
  | nil => rfl
  | cons p rest ih =>
    rw [show dkeys (p :: rest) = p.1 :: dkeys rest from rfl, List.nodup_cons] at hm
    rw [show dkeys (p :: rest) = p.1 :: dkeys rest from rfl, List.filterMap_cons]
    have hhead : dlookup (p :: rest) p.1 = some p.2 := by
      simp [dlookup]
    rw [hhead]
    have htail : (dkeys rest).filterMap (fun k => dlookup (p :: rest) k) =
        (dkeys rest).filterMap (fun k => dlookup rest k) := by
      apply filterMap_congr_mem
      intro k hk
      have hne : p.1 ≠ k := fun hcon => hm.1 (hcon ▸ hk)
      simp [dlookup, hne]
    rw [htail, ih hm.2]
    rfl

lemma dlookup_buildDict (l : List DocRecord) (k : String) :
    dlookup (buildDict l) k = (l.filter (fun d => d.file_path == k)).getLast? := by
  induction l using List.reverseRecOn with
  | nil => rfl
  | append_singleton t a ih =>
    rw [buildDict_append, dlookup_dictInsert, List.filter_append]
    by_cases hfa : a.file_path = k
    · rw [if_pos hfa.symm]
      have hone : [a].filter (fun d => d.file_path == k) = [a] := by simp [hfa]
      rw [hone, List.getLast?_concat]
    · rw [if_neg (fun hcon => hfa hcon.symm)]
      have hzero : [a].filter (fun d => d.file_path == k) = [] := by simp [hfa]
      rw [hzero, List.append_nil, ih]

/-! ### Claims about the diff engine -/

/-- C1: the claim says `get_diff` classifies as removed the records whose
`file_path` is in `local` but not in `scraped`, and in particular
`diff([], A)` returns `removed = A`.  The code instead raises
`KeyError` (here `.error`): the `updated_names` comprehension indexes
`scraped_docs[doc_name]` for every local record with no membership guard, so
any record present only in `local` crashes `get_diff` before it returns.
This theorem evaluates the code at the failing input `scraped = []`,
`local = [a.pdf]`. -/
theorem c1_diff_empty_scraped_keyerror :
    get_diff [] [⟨"a.pdf", "u", "2020-01-01", []⟩] = .error "a.pdf" := rfl

/-- C2: the claim says `get_diff` classifies as updated exactly the records
present in both collections whose scraped `publication_date` is strictly
newer.  On a pair where some local record is missing from `scraped`, the
code raises `KeyError` instead of returning any classification: here the
claim expects `updated = [a.pdf (2021)]` and `removed = [b.pdf]`, but the
`updated_names` comprehension crashes on `b.pdf`. -/
theorem c2_updated_keyerror :
    get_diff [⟨"a.pdf", "u", "2021-01-01", []⟩]
        [⟨"a.pdf", "u", "2020-01-01", []⟩, ⟨"b.pdf", "v", "2020-01-01", []⟩] =
      .error "b.pdf" := rfl

/-- C3: for every collection `A`, `get_diff A A` succeeds and returns empty
`new`, `removed` and `updated` lists (equal `publication_date` is not
counted as updated: the comparison is strict). -/
theorem c3_diff_self (A : List DocRecord) : get_diff A A = .ok ⟨[], [], []⟩ := by
  have hupd : updatedNamesAux (buildDict A) (buildDict A) = .ok [] := by
    apply updatedNamesAux_refl
    intro p hp
    obtain ⟨k, d⟩ := p
    exact dlookup_of_mem_of_nodup k d _ (nodup_dkeys_buildDict A) hp
  have hfil : (dkeys (buildDict A)).filter
      (fun k => (dlookup (buildDict A) k).isNone) = [] := by
    rw [List.filter_eq_nil_iff]
    intro k hk hcon
    have hs := isSome_dlookup_of_mem_dkeys _ _ hk
    rw [Option.isNone_iff_eq_none] at hcon
    rw [hcon] at hs
    simp at hs
  show diffDicts (buildDict A) (buildDict A) = .ok ⟨[], [], []⟩
  simp only [diffDicts]
  rw [hupd, hfil]
  simp

/-- C4: for every collection `A` with unique `file_path` keys,
`get_diff A []` returns `new = A`, `removed = []`, `updated = []`. -/
theorem c4_diff_empty_local (A : List DocRecord)
    (h : (A.map DocRecord.file_path).Nodup) :
    get_diff A [] = .ok ⟨A, [], []⟩ := by
  have hmap : buildDict A = A.map (fun d => (d.file_path, d)) := buildDict_eq_map A h
  have hkeys : dkeys (A.map (fun d => (d.file_path, d))) = A.map DocRecord.file_path := by
    simp [dkeys, List.map_map, Function.comp]
  have hnodup : (dkeys (A.map (fun d => (d.file_path, d)))).Nodup := by
    rw [hkeys]
    exact h
  have hself := filterMap_dlookup_self _ hnodup
  have hsnd : (A.map (fun d => (d.file_path, d))).map Prod.snd = A := by
    simp [Function.comp_def]
  show diffDicts (buildDict A) (buildDict []) = .ok ⟨A, [], []⟩
  rw [hmap, show buildDict [] = ([] : List (String × DocRecord)) from rfl]
  simp only [diffDicts, updatedNamesAux, dlookup, Option.isNone_none, List.filter_true,
    dkeys, List.map_nil, List.filter_nil, List.filterMap_nil]
  rw [show dkeys (A.map fun d => (d.file_path, d)) =
        (A.map fun d => (d.file_path, d)).map Prod.fst from rfl] at hself
  rw [hself, hsnd]

/-- C4 witness: a concrete two-record collection with distinct file paths. -/
theorem c4_diff_empty_local_witness :
    get_diff [⟨"a.pdf", "u", "2020-01-01", []⟩, ⟨"b.pdf", "v", "2021-01-01", []⟩] [] =
      .ok ⟨[⟨"a.pdf", "u", "2020-01-01", []⟩, ⟨"b.pdf", "v", "2021-01-01", []⟩], [], []⟩ :=
  c4_diff_empty_local _ (by simp)

/-- C5: the dict built from an input collection is last-write-wins — looking
up a key returns the last record of the input carrying that `file_path`
(`none` when absent) — and `get_diff` is exactly the diff of the two
deduplicated dicts. -/
theorem c5_last_write_wins :
    (∀ (l : List DocRecord) (k : String),
        dlookup (buildDict l) k = (l.filter (fun d => d.file_path == k)).getLast?) ∧
      ∀ scraped loc : List DocRecord,
        get_diff scraped loc = diffDicts (buildDict scraped) (buildDict loc) :=
  ⟨dlookup_buildDict, fun _ _ => rfl⟩

/-! ### Effectful commands: filesystem, oracles, traces

The `status` and `download` commands touch the filesystem, run the scraper
subprocess and fetch URLs.  We model the filesystem as explicit state
(directories plus a path-to-content map where the newest write shadows
older ones), the scraper and the network as oracles, and record every
external effect in a trace, in program order. -/

/-- The persisted manifest (`meta.json`): description, optional
ISO timestamp, and the full document record list. -/
structure Manifest where
  description : String
  updated : Option String
  document_info : List DocRecord
deriving DecidableEq, Repr

/-- File content: raw bytes (a fetched document, or an unparsable
`meta.json`), or a well-formed serialized manifest. -/
inductive Content where
  | bytes (b : List Nat)
  | manifest (m : Manifest)
deriving DecidableEq, Repr

/-- Filesystem state: existing directories and files (newest write first). -/
structure World where
  dirs : List String
  files : List (String × Content)
deriving DecidableEq, Repr

/-- Read a file: the newest write at that path, if any. -/
def readFile (w : World) (p : String) : Option Content :=
  (w.files.find? (fun q => q.1 == p)).map (fun q => q.2)

/-- Write a file, overwriting any previous content at that path. -/
def writeFile (w : World) (p : String) (c : Content) : World :=
  ⟨w.dirs, (p, c) :: w.files⟩

/-- `Path.exists()`: the path is a directory or a file. -/
def pathExists (w : World) (p : String) : Bool :=
  w.dirs.contains p || w.files.any (fun q => q.1 == p)

/-- `Path.mkdir(...)`: record the directory. -/
def mkdirP (w : World) (p : String) : World :=
  ⟨p :: w.dirs, w.files⟩

/-- `dest_dir / rel`: path join. -/
def pathJoin (a b : String) : String :=
  a ++ "/" ++ b

/-- `path.parent`: drop the last path component. -/
def parentDir (p : String) : String :=
  String.intercalate "/" (p.splitOn "/").dropLast

/-- External effects, in program order. -/
inductive Event where
  | scrape
  | fetch (url : String)
  | mkdir (path : String)
  | write (path : String) (c : Content)
  | read (path : String)
deriving DecidableEq, Repr

/-- The scraper subprocess and the network, as oracles.  `scrape` models
`scrape_document_info()` (non-zero exit or unparsable output is `.error`);
`fetch url` models `urlopen(url).read()` (`.error` is a network failure). -/
structure Oracle where
  scrape : Except String (List DocRecord)
  fetch : String → Except String (List Nat)

/-- Errors surfaced to the command layer. -/
inductive Err where
  | destExists (d : String)
  | scrapeFailure (msg : String)
  | fetchFailure (msg : String)
  | parseError (path : String)
  | keyError (k : String)
deriving DecidableEq, Repr

/-- Result of running a command: outcome, final filesystem, effect trace. -/
structure Outcome (α : Type) where
  res : Except Err α
  world : World
  trace : List Event

/-- `download_documents(document_info, dest_dir)`: for each record in input
order, create the parent directory of `dest_dir / file_path`, fetch the
URL, write the bytes; a fetch failure aborts immediately, leaving
previously written files in place. -/
def download_documents (o : Oracle) (dest_dir : String) :
    List DocRecord → World → Outcome Unit
  | [], w => ⟨.ok (), w, []⟩
  | doc :: rest, w =>
    match o.fetch doc.url with
    | .error msg =>
      ⟨.error (.fetchFailure msg),
        mkdirP w (parentDir (pathJoin dest_dir doc.file_path)),
        [.mkdir (parentDir (pathJoin dest_dir doc.file_path)), .fetch doc.url]⟩
    | .ok b =>
      ⟨(download_documents o dest_dir rest
          (writeFile (mkdirP w (parentDir (pathJoin dest_dir doc.file_path)))
            (pathJoin dest_dir doc.file_path) (.bytes b))).res,
        (download_documents o dest_dir rest
          (writeFile (mkdirP w (parentDir (pathJoin dest_dir doc.file_path)))
            (pathJoin dest_dir doc.file_path) (.bytes b))).world,
        .mkdir (parentDir (pathJoin dest_dir doc.file_path)) :: .fetch doc.url ::
          .write (pathJoin dest_dir doc.file_path) (.bytes b) ::
          (download_documents o dest_dir rest
            (writeFile (mkdirP w (parentDir (pathJoin dest_dir doc.file_path)))
              (pathJoin dest_dir doc.file_path) (.bytes b))).trace⟩

/-- The `download` command: fail if `dest_dir` exists, else create it,
scrape, download every record, then write the manifest to
`dest_dir/meta.json` with the current timestamp `now` and the scraped
record list verbatim. -/
def download (o : Oracle) (now : String) (dest_dir : String) (w : World) : Outcome Unit :=
  if pathExists w dest_dir then
    ⟨.error (.destExists dest_dir), w, []⟩
  else
    match o.scrape with
    | .error msg =>
      ⟨.error (.scrapeFailure msg), mkdirP w dest_dir, [.mkdir dest_dir, .scrape]⟩
    | .ok document_info =>
      match (download_documents o dest_dir document_info (mkdirP w dest_dir)).res with
      | .error e =>
        ⟨.error e,
          (download_documents o dest_dir document_info (mkdirP w dest_dir)).world,
          .mkdir dest_dir :: .scrape ::
            (download_documents o dest_dir document_info (mkdirP w dest_dir)).trace⟩
      | .ok _ =>
        ⟨.ok (),
          writeFile (download_documents o dest_dir document_info (mkdirP w dest_dir)).world
            (pathJoin dest_dir "meta.json")
            (.manifest ⟨"OpenFoodFacts non-EU packager codes", some now, document_info⟩),
          (.mkdir dest_dir :: .scrape ::
              (download_documents o dest_dir document_info (mkdirP w dest_dir)).trace) ++
            [.write (pathJoin dest_dir "meta.json")
              (.manifest ⟨"OpenFoodFacts non-EU packager codes", some now, document_info⟩)]⟩

/-- What `status` keeps of the local `meta.json`: the fields it reads.
When the file is absent the dict is `\x7b"document_info": []\x7d`, which has no
`updated` key (`none`). -/
structure LocalMeta where
  updated : Option String
  document_info : List DocRecord
deriving DecidableEq, Repr

/-- `local_meta.get("updated", "never")`. -/
def LocalMeta.updatedDisplay (lm : LocalMeta) : String :=
  lm.updated.getD "never"

/-- Loading the local manifest in `status`: absent file gives the default
dict; an existing file is parsed (`json.load`), a malformed one fails with
a parse error. -/
def loadMeta (w : World) (p : String) : Except Err LocalMeta × List Event :=
  match readFile w p with
  | none => (.ok ⟨none, []⟩, [])
  | some (.manifest m) => (.ok ⟨m.updated, m.document_info⟩, [.read p])
  | some (.bytes _) => (.error (.parseError p), [.read p])

/-- `--output-format` choice. -/
inductive OutputFormat where
  | summary
  | json
deriving DecidableEq, Repr

/-- The summary text:
`"Last updated: ...\nNew: n, Removed: n, Updated: n"`. -/
def renderSummary (lm : LocalMeta) (d : DiffResult) : String :=
  "Last updated: " ++ lm.updatedDisplay ++ "\nNew: " ++ toString d.new.length ++
    ", Removed: " ++ toString d.removed.length ++ ", Updated: " ++ toString d.updated.length

/-- `pprint(doc_diff)`: a structural dump of the diff object. -/
def renderDump (d : DiffResult) : String :=
  "new=[" ++ String.intercalate ", " (d.new.map DocRecord.file_path) ++
    "] removed=[" ++ String.intercalate ", " (d.removed.map DocRecord.file_path) ++
    "] updated=[" ++ String.intercalate ", " (d.updated.map DocRecord.file_path) ++ "]"

/-- The `status` command: load `data_dir/meta.json` (absent file means the
empty default), scrape, diff scraped against the local `document_info`,
and render the output.  It only ever reads the filesystem. -/
def status (o : Oracle) (data_dir : String) (fmt : OutputFormat) (w : World) :
    Outcome String :=
  let meta_path := pathJoin data_dir "meta.json"
  match loadMeta w meta_path with
  | (.error e, tr) => ⟨.error e, w, tr⟩
  | (.ok local_meta, tr) =>
    match o.scrape with
    | .error msg => ⟨.error (.scrapeFailure msg), w, tr ++ [.scrape]⟩
    | .ok scraped_info =>
      match get_diff scraped_info local_meta.document_info with
      | .error k => ⟨.error (.keyError k), w, tr ++ [.scrape]⟩
      | .ok doc_diff =>
        match fmt with
        | .json => ⟨.ok (renderDump doc_diff), w, tr ++ [.scrape]⟩
        | .summary => ⟨.ok (renderSummary local_meta doc_diff), w, tr ++ [.scrape]⟩

/-! ### Filesystem lemmas -/

lemma readFile_writeFile (w : World) (p : String) (c : Content) (q : String) :
    readFile (writeFile w p c) q = if q = p then some c else readFile w q := by
  unfold readFile writeFile
  by_cases h : q = p
  · subst h
    simp [List.find?_cons]
  · simp [List.find?_cons, Ne.symm h, h]

lemma readFile_mkdirP (w : World) (d : String) (q : String) :
    readFile (mkdirP w d) q = readFile w q := rfl

lemma append_left_cancel_str (s t u : String) (h : s ++ t = s ++ u) : t = u := by
  have h2 := congrArg String.data h
  simp [String.data_append] at h2
  exact String.ext h2

lemma pathJoin_inj (a x y : String) (h : pathJoin a x = pathJoin a y) : x = y := by
  unfold pathJoin at h
  rw [String.append_assoc, String.append_assoc] at h
  exact append_left_cancel_str _ _ _ (append_left_cancel_str _ _ _ h)

/-! ### Claims about the download command -/

/-- C6: when the destination already exists, `download` fails with the
`destExists` error, the filesystem is unchanged, and the trace is empty
(so in particular no scrape or fetch happened). -/
theorem c6_download_dest_exists (o : Oracle) (now dest : String) (w : World)
    (h : pathExists w dest = true) :
    download o now dest w = ⟨.error (.destExists dest), w, []⟩ := by
  unfold download
  rw [if_pos h]

/-- C6 witness: a world where the destination directory exists. -/
theorem c6_download_dest_exists_witness :
    pathExists ⟨["d"], []⟩ "d" = true ∧
      download ⟨.ok [], fun _ => .error "net"⟩ "2024-01-01T00:00:00" "d" ⟨["d"], []⟩ =
        ⟨.error (.destExists "d"), ⟨["d"], []⟩, []⟩ :=
  ⟨rfl, c6_download_dest_exists _ _ _ _ rfl⟩

/-- Events that change the filesystem. -/
def isMutation : Event → Bool
  | .write _ _ => true
  | .mkdir _ => true
  | _ => false

lemma loadMeta_trace (w : World) (p : String) (res : Except Err LocalMeta)
    (tr : List Event) (h : loadMeta w p = (res, tr)) :
    tr = [] ∨ tr = [.read p] := by
  unfold loadMeta at h
  cases hr : readFile w p with
  | none =>
    rw [hr] at h
    exact .inl (congrArg Prod.snd h).symm
  | some c =>
    cases c with
    | manifest m =>
      rw [hr] at h
      exact .inr (congrArg Prod.snd h).symm
    | bytes b =>
      rw [hr] at h
      exact .inr (congrArg Prod.snd h).symm

/-- C8: `status` never writes: for every oracle, data directory, output
format and filesystem, the final filesystem equals the initial one and no
trace event is a write or mkdir. -/
theorem c8_status_read_only (o : Oracle) (data_dir : String) (fmt : OutputFormat)
    (w : World) :
    (status o data_dir fmt w).world = w ∧
      ∀ e ∈ (status o data_dir fmt w).trace, isMutation e = false := by
  simp only [status]
  split
  next e tr heq =>
    have htr := loadMeta_trace w (pathJoin data_dir "meta.json") _ _ heq
    refine ⟨rfl, ?_⟩
    intro ev he
    rcases htr with h | h <;> subst h
    · simp at he
    · rw [List.mem_singleton] at he
      subst he
      rfl
  next local_meta tr heq =>
    have htr := loadMeta_trace w (pathJoin data_dir "meta.json") _ _ heq
    have htrs : ∀ ev ∈ tr ++ [Event.scrape], isMutation ev = false := by
      intro ev he
      rcases List.mem_append.mp he with h | h
      · rcases htr with h2 | h2 <;> subst h2
        · simp at h
        · rw [List.mem_singleton] at h
          subst h
          rfl
      · rw [List.mem_singleton] at h
        subst h
        rfl
    split
    · exact ⟨rfl, htrs⟩
    · split
      · exact ⟨rfl, htrs⟩
      · split <;> exact ⟨rfl, htrs⟩

/-- C9: loading the local manifest: an absent file yields the default local
metadata (empty document list, no `updated` timestamp) — which the summary
renders as `"Last updated: never"` — an existing well-formed file is parsed
as the persisted structure, and a malformed file fails with a parse error. -/
theorem c9_load_meta (w : World) (p : String) :
    (readFile w p = none →
        loadMeta w p = (.ok ⟨none, []⟩, []) ∧
          ∀ d : DiffResult,
            renderSummary ⟨none, []⟩ d =
              "Last updated: never" ++ "\nNew: " ++ toString d.new.length ++
                ", Removed: " ++ toString d.removed.length ++
                ", Updated: " ++ toString d.updated.length) ∧
      (∀ m : Manifest, readFile w p = some (.manifest m) →
          loadMeta w p = (.ok ⟨m.updated, m.document_info⟩, [.read p])) ∧
      (∀ b : List Nat, readFile w p = some (.bytes b) →
          loadMeta w p = (.error (.parseError p), [.read p])) := by
  refine ⟨?_, ?_, ?_⟩
  · intro h
    constructor
    · unfold loadMeta
      rw [h]
    · intro d
      unfold renderSummary LocalMeta.updatedDisplay
      rw [show (("Last updated: " ++ Option.getD none "never" : String)) =
            "Last updated: never" from rfl]
  · intro m h
    unfold loadMeta
    rw [h]
  · intro b h
    unfold loadMeta
    rw [h]

/-- C9 witness: a world with a well-formed manifest at `d/meta.json`, a
malformed file at `bad/meta.json`, and nothing at `nope/meta.json`. -/
theorem c9_load_meta_witness :
    loadMeta ⟨[], [("d/meta.json", .manifest ⟨"x", some "2020-01-01", []⟩),
        ("bad/meta.json", .bytes [0])]⟩ "nope/meta.json" = (.ok ⟨none, []⟩, []) ∧
      renderSummary ⟨none, []⟩ ⟨[], [], []⟩ =
        "Last updated: never" ++ "\nNew: " ++ toString (0 : Nat) ++
          ", Removed: " ++ toString (0 : Nat) ++ ", Updated: " ++ toString (0 : Nat) ∧
      loadMeta ⟨[], [("d/meta.json", .manifest ⟨"x", some "2020-01-01", []⟩),
          ("bad/meta.json", .bytes [0])]⟩ "d/meta.json" =
        (.ok ⟨some "2020-01-01", []⟩, [.read "d/meta.json"]) ∧
      loadMeta ⟨[], [("d/meta.json", .manifest ⟨"x", some "2020-01-01", []⟩),
          ("bad/meta.json", .bytes [0])]⟩ "bad/meta.json" =
        (.error (.parseError "bad/meta.json"), [.read "bad/meta.json"]) :=
  ⟨((c9_load_meta ⟨[], [("d/meta.json", .manifest ⟨"x", some "2020-01-01", []⟩),
        ("bad/meta.json", .bytes [0])]⟩ "nope/meta.json").1 rfl).1,
    ((c9_load_meta ⟨[], [("d/meta.json", .manifest ⟨"x", some "2020-01-01", []⟩),
        ("bad/meta.json", .bytes [0])]⟩ "nope/meta.json").1 rfl).2 ⟨[], [], []⟩,
    (c9_load_meta ⟨[], [("d/meta.json", .manifest ⟨"x", some "2020-01-01", []⟩),
        ("bad/meta.json", .bytes [0])]⟩ "d/meta.json").2.1 ⟨"x", some "2020-01-01", []⟩ rfl,
    (c9_load_meta ⟨[], [("d/meta.json", .manifest ⟨"x", some "2020-01-01", []⟩),
        ("bad/meta.json", .bytes [0])]⟩ "bad/meta.json").2.2 [0] rfl⟩

/-! ### Download lemmas -/

lemma download_documents_fetch_error (o : Oracle) (dest_dir : String)
    (doc : DocRecord) (rest : List DocRecord) (w : World) (msg : String)
    (hf : o.fetch doc.url = .error msg) :
    download_documents o dest_dir (doc :: rest) w =
      ⟨.error (.fetchFailure msg),
        mkdirP w (parentDir (pathJoin dest_dir doc.file_path)),
        [.mkdir (parentDir (pathJoin dest_dir doc.file_path)), .fetch doc.url]⟩ := by
  unfold download_documents
  rw [hf]

lemma download_documents_fetch_ok (o : Oracle) (dest_dir : String)
    (doc : DocRecord) (rest : List DocRecord) (w : World) (b : List Nat)
    (hf : o.fetch doc.url = .ok b) :
    download_documents o dest_dir (doc :: rest) w =
      ⟨(download_documents o dest_dir rest
          (writeFile (mkdirP w (parentDir (pathJoin dest_dir doc.file_path)))
            (pathJoin dest_dir doc.file_path) (.bytes b))).res,
        (download_documents o dest_dir rest
          (writeFile (mkdirP w (parentDir (pathJoin dest_dir doc.file_path)))
            (pathJoin dest_dir doc.file_path) (.bytes b))).world,
        .mkdir (parentDir (pathJoin dest_dir doc.file_path)) :: .fetch doc.url ::
          .write (pathJoin dest_dir doc.file_path) (.bytes b) ::
          (download_documents o dest_dir rest
            (writeFile (mkdirP w (parentDir (pathJoin dest_dir doc.file_path)))
              (pathJoin dest_dir doc.file_path) (.bytes b))).trace⟩ := by
  conv_lhs => rw [download_documents]
  rw [hf]

lemma download_documents_frame (o : Oracle) (dest_dir : String)
    (docs : List DocRecord) :
    ∀ (w : World) (q : String),
      (∀ doc ∈ docs, pathJoin dest_dir doc.file_path ≠ q) →
      readFile (download_documents o dest_dir docs w).world q = readFile w q := by
  induction docs with
  | nil =>
    intro w q _
    rfl
  | cons doc rest ih =>
    intro w q h
    cases hf : o.fetch doc.url with
    | error msg =>
      rw [download_documents_fetch_error o dest_dir doc rest w msg hf]
      rfl
    | ok b =>
      rw [download_documents_fetch_ok o dest_dir doc rest w b hf]
      rw [show (⟨(download_documents o dest_dir rest
            (writeFile (mkdirP w (parentDir (pathJoin dest_dir doc.file_path)))
              (pathJoin dest_dir doc.file_path) (.bytes b))).res, _, _⟩ : Outcome Unit).world =
          (download_documents o dest_dir rest
            (writeFile (mkdirP w (parentDir (pathJoin dest_dir doc.file_path)))
              (pathJoin dest_dir doc.file_path) (.bytes b))).world from rfl]
      rw [ih _ q (fun d hd => h d (List.mem_cons_of_mem _ hd))]
      rw [readFile_writeFile]
      rw [if_neg (fun hcon => h doc (List.mem_cons_self _ _) hcon.symm)]
      rfl

lemma download_documents_content (o : Oracle) (dest_dir : String) :
    ∀ (docs : List DocRecord) (w : World),
      (docs.map DocRecord.file_path).Nodup →
      (download_documents o dest_dir docs w).res = .ok () →
      ∀ doc ∈ docs, ∃ b, o.fetch doc.url = .ok b ∧
        readFile (download_documents o dest_dir docs w).world
          (pathJoin dest_dir doc.file_path) = some (.bytes b) := by
  intro docs
  induction docs with
  | nil =>
    intro w _ _ doc hd
    exact absurd hd (List.not_mem_nil doc)
  | cons d0 rest ih =>
    intro w hnd hok doc hd
    have hnd' : (∀ x ∈ rest, ¬ x.file_path = d0.file_path) ∧
        (rest.map DocRecord.file_path).Nodup := by simpa using hnd
    cases hf : o.fetch d0.url with
    | error msg =>
      rw [download_documents_fetch_error o dest_dir d0 rest w msg hf] at hok
      exact absurd hok (by simp)
    | ok b0 =>
      rw [download_documents_fetch_ok o dest_dir d0 rest w b0 hf] at hok ⊢
      rcases List.mem_cons.mp hd with heq | htail
      · subst heq
        refine ⟨b0, hf, ?_⟩
        show readFile (download_documents o dest_dir rest
            (writeFile (mkdirP w (parentDir (pathJoin dest_dir doc.file_path)))
              (pathJoin dest_dir doc.file_path) (.bytes b0))).world
            (pathJoin dest_dir doc.file_path) = some (.bytes b0)
        rw [download_documents_frame o dest_dir rest _ _ ?hfr]
        · rw [readFile_writeFile, if_pos rfl]
        case hfr =>
          intro d' hd' hcon
          have hpe : d'.file_path = doc.file_path := pathJoin_inj dest_dir _ _ hcon
          exact hnd'.1 d' hd' hpe
      · have hok' : (download_documents o dest_dir rest
            (writeFile (mkdirP w (parentDir (pathJoin dest_dir d0.file_path)))
              (pathJoin dest_dir d0.file_path) (.bytes b0))).res = .ok () := hok
        exact ih _ hnd'.2 hok' doc htail

lemma download_documents_trace_no_manifest (o : Oracle) (dest_dir : String) :
    ∀ (docs : List DocRecord) (w : World) (p : String) (m : Manifest),
      Event.write p (.manifest m) ∉ (download_documents o dest_dir docs w).trace := by
  intro docs
  induction docs with
  | nil =>
    intro w p m hmem
    exact absurd hmem (List.not_mem_nil _)
  | cons d0 rest ih =>
    intro w p m
    cases hf : o.fetch d0.url with
    | error msg =>
      rw [download_documents_fetch_error o dest_dir d0 rest w msg hf]
      intro hmem
      rcases hmem with _ | ⟨_, hmem⟩
      rcases hmem with _ | ⟨_, hmem⟩
      exact absurd hmem (List.not_mem_nil _)
    | ok b0 =>
      rw [download_documents_fetch_ok o dest_dir d0 rest w b0 hf]
      intro hmem
      rcases hmem with _ | ⟨_, hmem⟩
      rcases hmem with _ | ⟨_, hmem⟩
      rcases hmem with _ | ⟨_, hmem⟩
      exact ih _ p m hmem

lemma download_step (o : Oracle) (now dest : String) (w : World) (docs : List DocRecord)
    (hex : pathExists w dest = false) (hs : o.scrape = .ok docs) :
    download o now dest w =
      match (download_documents o dest docs (mkdirP w dest)).res with
      | .error e =>
        ⟨.error e, (download_documents o dest docs (mkdirP w dest)).world,
          .mkdir dest :: .scrape :: (download_documents o dest docs (mkdirP w dest)).trace⟩
      | .ok _ =>
        ⟨.ok (),
          writeFile (download_documents o dest docs (mkdirP w dest)).world
            (pathJoin dest "meta.json")
            (.manifest ⟨"OpenFoodFacts non-EU packager codes", some now, docs⟩),
          (.mkdir dest :: .scrape :: (download_documents o dest docs (mkdirP w dest)).trace) ++
            [.write (pathJoin dest "meta.json")
              (.manifest ⟨"OpenFoodFacts non-EU packager codes", some now, docs⟩)]⟩ := by
  conv_lhs => rw [download]
  rw [if_neg (by simp [hex]), hs]

/-- C7 counterexample oracle: one scraped record whose `file_path` is
`meta.json` itself. -/
def clobberOracle : Oracle :=
  ⟨.ok [⟨"meta.json", "u", "2020-01-01", []⟩],
    fun u => if u = "u" then .ok [7] else .error "x"⟩

/-- C7 counterexample: when a scraped record's `file_path` is `meta.json`,
`download` succeeds, the record's bytes are fetched and written, but the
manifest written afterwards to the same path overwrites them — so the final
file content at `dest/meta.json` is not the fetched byte content, refuting
the claim's "every record's file_path exists ... with the fetched byte
content". -/
theorem c7_meta_json_clobbered :
    (download clobberOracle "2024-01-01T00:00:00" "dest" ⟨[], []⟩).res = .ok () ∧
      clobberOracle.scrape = .ok [⟨"meta.json", "u", "2020-01-01", []⟩] ∧
      clobberOracle.fetch "u" = .ok [7] ∧
      readFile (download clobberOracle "2024-01-01T00:00:00" "dest" ⟨[], []⟩).world
          (pathJoin "dest" "meta.json") ≠ some (.bytes [7]) ∧
      readFile (download clobberOracle "2024-01-01T00:00:00" "dest" ⟨[], []⟩).world
          (pathJoin "dest" "meta.json") =
        some (.manifest ⟨"OpenFoodFacts non-EU packager codes",
          some "2024-01-01T00:00:00", [⟨"meta.json", "u", "2020-01-01", []⟩]⟩) :=
  ⟨rfl, rfl, rfl, by decide, rfl⟩

/-- C7 (amended): after a successful `download` whose scraped records have
unique `file_path`s, the manifest at `dest/meta.json` holds the
description, the timestamp and the scraped record list verbatim, and every
record whose `file_path` is not `meta.json` itself exists under the
destination with the fetched byte content (a record named `meta.json` is
overwritten by the manifest, written last). -/
theorem c7_download_success (o : Oracle) (now dest : String) (w : World)
    (docs : List DocRecord) (hs : o.scrape = .ok docs)
    (hnd : (docs.map DocRecord.file_path).Nodup)
    (hok : (download o now dest w).res = .ok ()) :
    readFile (download o now dest w).world (pathJoin dest "meta.json") =
        some (.manifest ⟨"OpenFoodFacts non-EU packager codes", some now, docs⟩) ∧
      ∀ doc ∈ docs, doc.file_path ≠ "meta.json" →
        ∃ b, o.fetch doc.url = .ok b ∧
          readFile (download o now dest w).world (pathJoin dest doc.file_path) =
            some (.bytes b) := by
  by_cases hex : pathExists w dest = true
  · exfalso
    have hdl : download o now dest w = ⟨.error (.destExists dest), w, []⟩ := by
      conv_lhs => rw [download]
      rw [if_pos hex]
    rw [hdl] at hok
    exact absurd hok (by simp)
  · have hex' : pathExists w dest = false := by simpa using hex
    have hstep := download_step o now dest w docs hex' hs
    cases hr : (download_documents o dest docs (mkdirP w dest)).res with
    | error e =>
      exfalso
      rw [hstep, hr] at hok
      simp at hok
    | ok u =>
      obtain ⟨⟩ := u
      have hdl : download o now dest w =
          ⟨.ok (),
            writeFile (download_documents o dest docs (mkdirP w dest)).world
              (pathJoin dest "meta.json")
              (.manifest ⟨"OpenFoodFacts non-EU packager codes", some now, docs⟩),
            (.mkdir dest :: .scrape ::
                (download_documents o dest docs (mkdirP w dest)).trace) ++
              [.write (pathJoin dest "meta.json")
                (.manifest ⟨"OpenFoodFacts non-EU packager codes", some now, docs⟩)]⟩ := by
        rw [hstep, hr]
      rw [hdl]
      constructor
      · show readFile (writeFile (download_documents o dest docs (mkdirP w dest)).world
            (pathJoin dest "meta.json")
            (.manifest ⟨"OpenFoodFacts non-EU packager codes", some now, docs⟩))
            (pathJoin dest "meta.json") =
          some (.manifest ⟨"OpenFoodFacts non-EU packager codes", some now, docs⟩)
        rw [readFile_writeFile, if_pos rfl]
      · intro doc hdm hneq
        obtain ⟨b, hfb, hrb⟩ :=
          download_documents_content o dest docs (mkdirP w dest) hnd hr doc hdm
        refine ⟨b, hfb, ?_⟩
        show readFile (writeFile (download_documents o dest docs (mkdirP w dest)).world
            (pathJoin dest "meta.json")
            (.manifest ⟨"OpenFoodFacts non-EU packager codes", some now, docs⟩))
            (pathJoin dest doc.file_path) = some (.bytes b)
        rw [readFile_writeFile, if_neg (fun hcon => hneq (pathJoin_inj dest _ _ hcon)), hrb]

/-- C7 witness oracle: one ordinary record. -/
def okOracle : Oracle :=
  ⟨.ok [⟨"a.pdf", "u", "2020-01-01", []⟩],
    fun u => if u = "u" then .ok [1, 2] else .error "x"⟩

/-- C7 witness: a concrete successful download of one record `a.pdf`. -/
theorem c7_download_success_witness :
    readFile (download okOracle "2024-01-01T00:00:00" "dest" ⟨[], []⟩).world
        (pathJoin "dest" "meta.json") =
      some (.manifest ⟨"OpenFoodFacts non-EU packager codes",
        some "2024-01-01T00:00:00", [⟨"a.pdf", "u", "2020-01-01", []⟩]⟩) ∧
    ∃ b, okOracle.fetch "u" = .ok b ∧
      readFile (download okOracle "2024-01-01T00:00:00" "dest" ⟨[], []⟩).world
          (pathJoin "dest" "a.pdf") = some (.bytes b) :=
  have h := c7_download_success okOracle "2024-01-01T00:00:00" "dest" ⟨[], []⟩
    [⟨"a.pdf", "u", "2020-01-01", []⟩] rfl (by decide) rfl
  ⟨h.1, h.2 ⟨"a.pdf", "u", "2020-01-01", []⟩ (by decide) (by decide)⟩

/-- C10: whenever `download` fails (destination exists, scrape failure, or
any document fetch failure), no manifest content is ever written: every
write event in the trace carries raw bytes, so `dest/meta.json` receives
the manifest only after every record downloaded successfully. -/
theorem c10_no_manifest_write_on_error (o : Oracle) (now dest : String) (w : World)
    (e : Err) (h : (download o now dest w).res = .error e) (p : String) (m : Manifest) :
    Event.write p (.manifest m) ∉ (download o now dest w).trace := by
  by_cases hex : pathExists w dest = true
  · have hdl : download o now dest w = ⟨.error (.destExists dest), w, []⟩ := by
      conv_lhs => rw [download]
      rw [if_pos hex]
    rw [hdl]
    exact List.not_mem_nil _
  · have hex' : pathExists w dest = false := by simpa using hex
    cases hs : o.scrape with
    | error msg =>
      have hdl : download o now dest w =
          ⟨.error (.scrapeFailure msg), mkdirP w dest, [.mkdir dest, .scrape]⟩ := by
        conv_lhs => rw [download]
        rw [if_neg (by simp [hex']), hs]
      rw [hdl]
      intro hmem
      simp at hmem
    | ok docs =>
      have hstep := download_step o now dest w docs hex' hs
      cases hr : (download_documents o dest docs (mkdirP w dest)).res with
      | ok u =>
        obtain ⟨⟩ := u
        rw [hstep, hr] at h
        simp at h
      | error e2 =>
        have hdl : download o now dest w =
            ⟨.error e2, (download_documents o dest docs (mkdirP w dest)).world,
              .mkdir dest :: .scrape ::
                (download_documents o dest docs (mkdirP w dest)).trace⟩ := by
          rw [hstep, hr]
        rw [hdl]
        intro hmem
        simp only [List.mem_cons] at hmem
        rcases hmem with heq | heq | hmem
        · exact Event.noConfusion heq
        · exact Event.noConfusion heq
        · exact download_documents_trace_no_manifest o dest docs (mkdirP w dest) p m hmem

/-- C10 witness: a failing download (destination exists) with no manifest
write in its (empty) trace. -/
theorem c10_no_manifest_write_on_error_witness :
    Event.write "d/meta.json" (.manifest ⟨"", none, []⟩) ∉
      (download ⟨.ok [], fun _ => .error "net"⟩ "2024-01-01T00:00:00" "d"
        ⟨["d"], []⟩).trace :=
  c10_no_manifest_write_on_error ⟨.ok [], fun _ => .error "net"⟩ "2024-01-01T00:00:00"
    "d" ⟨["d"], []⟩ (.destExists "d") rfl "d/meta.json" ⟨"", none, []⟩

end PackagerCodes
